import Mathlib

/-!
Verification development for the richcli "magnet" feature: the help-text
option extractor (`MagnetUI._parse_help_text`), the navigation-signal
protocol (`BaseUI.check_navigation` / `BaseUI.raise_if_navigation`), the
interactive command assembler (`MagnetUI._build_interactive_command`) and
the history-recording runner (`BaseUI.execute_command`).

All string processing is carried out on `List Char`; Python semantics
(`str.strip`, `str.lower`, `str.split`, `int(...)`, and the three
`re.match` patterns of `_parse_help_text`) are embedded explicitly for the
ASCII inputs the tool manipulates.
-/

namespace Richcli

/-- Python `\s` / `str.strip` whitespace, ASCII range. -/
def pyIsSpace (c : Char) : Bool :=
  c = ' ' || c = '\t' || c = '\n' || c = '\r' || c = '\x0b' || c = '\x0c'

/-- Python `\w` (ASCII range): letters, digits, underscore. -/
def pyIsWord (c : Char) : Bool :=
  c.isAlphanum || c = '_'

/-- Character class `[A-Z_]` of the argument-placeholder group. -/
def isPlaceholderChar (c : Char) : Bool :=
  ('A' ≤ c && c ≤ 'Z') || c = '_'

/-- Python `str.strip()` on a character list. -/
def pyStrip (l : List Char) : List Char :=
  ((l.dropWhile pyIsSpace).reverse.dropWhile pyIsSpace).reverse

/-- Python `str.lower()` (ASCII). -/
def pyLowerStr (s : String) : String :=
  ⟨s.data.map Char.toLower⟩

/-- Python `str.split("\n")`: split into lines, keeping empty pieces. -/
def splitLinesGo (cur : List Char) : List Char → List (List Char)
  | [] => [cur.reverse]
  | '\n' :: rest => cur.reverse :: splitLinesGo [] rest
  | c :: rest => splitLinesGo (c :: cur) rest

def splitLines (text : List Char) : List (List Char) :=
  splitLinesGo [] text

/-- Python `str.split()` with no separator: split on whitespace runs,
dropping empty words. -/
def splitWsGo (cur : List Char) : List Char → List (List Char)
  | [] => if cur = [] then [] else [cur.reverse]
  | c :: rest =>
    if pyIsSpace c then
      if cur = [] then splitWsGo [] rest else cur.reverse :: splitWsGo [] rest
    else splitWsGo (c :: cur) rest

def pySplitWs (l : List Char) : List (List Char) :=
  splitWsGo [] l

/-- Python `" ".join(parts)`. -/
def joinSpace (ps : List (List Char)) : List Char :=
  (ps.intersperse [' ']).flatten

/-- Value of an ASCII digit. -/
def digitVal (c : Char) : Nat := c.toNat - 48

/-- Digits of a Python integer literal after the first digit: further digits
optionally separated by single underscores. -/
def pyDigitsGo (acc : Nat) : List Char → Option Nat
  | [] => some acc
  | '_' :: c :: rest =>
    if c.isDigit then pyDigitsGo (acc * 10 + digitVal c) rest else none
  | c :: rest =>
    if c.isDigit then pyDigitsGo (acc * 10 + digitVal c) rest else none

/-- Nonempty digit sequence (underscore-separated) of `int(...)`. -/
def pyDigits : List Char → Option Nat
  | [] => none
  | c :: rest => if c.isDigit then pyDigitsGo (digitVal c) rest else none

/-- Python `int(s)` on ASCII input: strip whitespace, optional sign, digits
with optional single underscores between them; `none` when `int` raises
`ValueError`. -/
def pyToInt (s : String) : Option Int :=
  match pyStrip s.data with
  | '-' :: rest => (pyDigits rest).map (fun n => -(n : Int))
  | '+' :: rest => (pyDigits rest).map (fun n => (n : Int))
  | l => (pyDigits l).map (fun n => (n : Int))

/-! ## Navigation signal protocol (`base.py`, `BaseUI.check_navigation` /
`BaseUI.raise_if_navigation`) -/

/-- The normalized form `value.strip().lower()` used by `check_navigation`. -/
def normalizeInput (value : String) : String :=
  ⟨(pyStrip value.data).map Char.toLower⟩

/-- `BaseUI.check_navigation`: classify user input as a navigation signal.
The `isinstance(value, str)` guard is vacuous here since the argument is
always a string. Returns `some "back"`, `some "exit"`, or `none`. -/
def check_navigation (value : String) : Option String :=
  let normalized := normalizeInput value
  if normalized = "b" ∨ normalized = "back" then some "back"
  else if normalized = "q" ∨ normalized = "quit" ∨ normalized = "exit" then some "exit"
  else none

/-- The `NavigationAction` exception: carries the classified action. -/
structure NavigationAction where
  action : String
deriving DecidableEq, Repr

/-- `BaseUI.raise_if_navigation`: raise `NavigationAction(action)` when the
classification is non-empty, otherwise return normally. -/
def raise_if_navigation (value : String) : Except NavigationAction Unit :=
  match check_navigation value with
  | some a => .error ⟨a⟩
  | none => .ok ()

/-! ## Option model extractor (`magnet.py`, `MagnetUI._parse_help_text`) -/

/-- Candidate descriptor: the four arguments of one `add_option` call. -/
structure Cand where
  short : Option String
  long : Option String
  arg : Option String
  desc : String
deriving DecidableEq, Repr

/-- One parsed option dictionary as appended by `add_option`. -/
structure OptDict where
  short : Option String
  long : Option String
  arg_name : Option String
  description : String
  requires_value : Bool
deriving DecidableEq, Repr

/-- The dictionary `add_option` builds from its four arguments:
description stripped, `requires_value` true iff an argument name is given. -/
def mkOpt (c : Cand) : OptDict :=
  ⟨c.short, c.long, c.arg, ⟨pyStrip c.desc.data⟩, c.arg.isSome⟩

/-- De-duplication key `(short_opt or "", long_opt or "")` of `add_option`. -/
def candKey (c : Cand) : String × String :=
  (c.short.getD "", c.long.getD "")

/-- The same identity key read off a recorded descriptor. -/
def optKey (o : OptDict) : String × String :=
  (o.short.getD "", o.long.getD "")

/-- The `seen`-set fold of `add_option` over a list of candidates. -/
def dedupGo (seen : List (String × String)) : List Cand → List OptDict
  | [] => []
  | c :: rest =>
    if candKey c ∈ seen then dedupGo seen rest
    else mkOpt c :: dedupGo (candKey c :: seen) rest

def dedupKeys (l : List Cand) : List OptDict :=
  dedupGo [] l

/-- Tail `(?:\s+([A-Z_]+))?\s+(.+)$` without the optional group:
`\s+(.+)$` with Python greedy/backtracking semantics. Returns the text
captured by `(.+)`. -/
def matchWsThenRest (r : List Char) : Option (List Char) :=
  let k := (r.takeWhile pyIsSpace).length
  if k = 0 then none
  else if k = r.length then
    if 2 ≤ k then some (r.drop (k - 1)) else none
  else some (r.drop k)

/-- Tail `(?:\s+([A-Z_]+))?\s+(.+)$` shared by all three line patterns,
with Python backtracking: the optional placeholder group is preferred, and
abandoned as a whole when its continuation cannot match. Returns
(placeholder group, description group). -/
def parseTail (r : List Char) : Option (Option (List Char) × List Char) :=
  let ws := (r.takeWhile pyIsSpace).length
  let r1 := r.drop ws
  let u := (r1.takeWhile isPlaceholderChar).length
  if 1 ≤ ws ∧ 1 ≤ u then
    match matchWsThenRest (r1.drop u) with
    | some desc => some (some (r1.take u), desc)
    | none => (matchWsThenRest r).map (fun d => (none, d))
  else (matchWsThenRest r).map (fun d => (none, d))

/-- First pattern `^\s*(-\w+),?\s+(--[\w-]+)(?:\s+([A-Z_]+))?\s+(.+)$`:
returns (short group, long group, placeholder group, description group). -/
def match1 (line : List Char) : Option (List Char × List Char × Option (List Char) × List Char) :=
  match line.dropWhile pyIsSpace with
  | '-' :: r0 =>
    let w := r0.takeWhile pyIsWord
    if w = [] then none else
    let r1 := r0.drop w.length
    let r2 := match r1 with | ',' :: t => t | _ => r1
    let ws := (r2.takeWhile pyIsSpace).length
    if ws = 0 then none else
    match r2.drop ws with
    | '-' :: '-' :: r3 =>
      let w2 := r3.takeWhile (fun c => pyIsWord c || c = '-')
      if w2 = [] then none else
      match parseTail (r3.drop w2.length) with
      | some (arg, desc) => some ('-' :: w, '-' :: '-' :: w2, arg, desc)
      | none => none
    | _ => none
  | _ => none

/-- Second pattern `^\s*(--[\w-]+)(?:\s+([A-Z_]+))?\s+(.+)$`. -/
def match2 (line : List Char) : Option (List Char × Option (List Char) × List Char) :=
  match line.dropWhile pyIsSpace with
  | '-' :: '-' :: r0 =>
    let w := r0.takeWhile (fun c => pyIsWord c || c = '-')
    if w = [] then none else
    match parseTail (r0.drop w.length) with
    | some (arg, desc) => some ('-' :: '-' :: w, arg, desc)
    | none => none
  | _ => none

/-- Third pattern `^\s*(-\w+)(?:\s+([A-Z_]+))?\s+(.+)$`. -/
def match3 (line : List Char) : Option (List Char × Option (List Char) × List Char) :=
  match line.dropWhile pyIsSpace with
  | '-' :: r0 =>
    let w := r0.takeWhile pyIsWord
    if w = [] then none else
    match parseTail (r0.drop w.length) with
    | some (arg, desc) => some ('-' :: w, arg, desc)
    | none => none
  | _ => none

/-- Per-line pattern cascade of the primary pass: patterns are tried in
order, the first match wins (`break`). The source dispatches on the number
of regex groups: four groups is the first pattern, three groups covers both
the second and the third pattern, so a third-pattern (short-only) match is
unpacked as `long_opt, arg_name, description` and recorded with
`short_opt = None` and the short token in the `long` field. -/
def lineCand (line : List Char) : Option Cand :=
  match match1 line with
  | some (s, l, a, d) => some ⟨some ⟨s⟩, some ⟨l⟩, a.map (⟨·⟩), ⟨d⟩⟩
  | none =>
    match match2 line with
    | some (l, a, d) => some ⟨none, some ⟨l⟩, a.map (⟨·⟩), ⟨d⟩⟩
    | none =>
      match match3 line with
      | some (s, a, d) => some ⟨none, some ⟨s⟩, a.map (⟨·⟩), ⟨d⟩⟩
      | none => none

/-- All `add_option` calls of the primary line-by-line pass, in order. -/
def primaryCands (text : List Char) : List Cand :=
  (splitLines text).filterMap lineCand

/-- Python `re.findall(r"\[([^\]]+)\]", text)`: bracket-delimited tokens,
scanned left to right, non-overlapping. Fuel-driven so that the kernel can
evaluate it; `bracketTokens` supplies fuel `text.length`, which suffices
since every step consumes at least one character. -/
def bracketGo : Nat → List Char → List (List Char)
  | 0, _ => []
  | _ + 1, [] => []
  | fuel + 1, '[' :: rest =>
    let content := rest.takeWhile (fun c => ¬(c = ']'))
    if content.length = 0 then bracketGo fuel rest
    else if content.length = rest.length then []
    else content :: bracketGo fuel (rest.drop (content.length + 1))
  | fuel + 1, _ :: rest => bracketGo fuel rest

def bracketTokens (text : List Char) : List (List Char) :=
  bracketGo text.length text

/-- Does `token.lower()` start with `"usage"`? -/
def lowerStartsWithUsage (tok : List Char) : Bool :=
  (tok.map Char.toLower).take 5 = ['u', 's', 'a', 'g', 'e']

/-- The `add_option` calls made for one bracket token of the fallback pass. -/
def tokenCands (tok0 : List Char) : List Cand :=
  let tok := pyStrip tok0
  if tok = [] then []
  else if lowerStartsWithUsage tok then []
  else if tok.head? = some '-' ∧ ¬(' ' ∈ tok) ∧ 2 < tok.length then
    (tok.drop 1).map (fun ch => ⟨some ⟨['-', ch]⟩, none, none, "Option flag"⟩)
  else
    match pySplitWs tok with
    | [] => []
    | p0 :: ps =>
      if p0.head? = some '-' then
        match ps with
        | [] => [⟨some ⟨p0⟩, none, none, "Option flag"⟩]
        | p1 :: _ => [⟨some ⟨p0⟩, none, some ⟨p1⟩, ⟨joinSpace ps⟩⟩]
      else []

/-- All `add_option` calls of the fallback pass, in order. -/
def fallbackCands (text : List Char) : List Cand :=
  (bracketTokens text).flatMap tokenCands

/-- The candidate stream that actually feeds `add_option`: the primary
pass when it produced anything, otherwise the fallback pass. -/
def candidatesOf (text : List Char) : List Cand :=
  match primaryCands text with
  | [] => fallbackCands text
  | ps => ps

/-- `MagnetUI._parse_help_text`: primary line-pattern pass, de-duplicated;
if it yields nothing, the bracket-token fallback pass (the `seen` set is
still empty at that point). -/
def parseHelpText (helpText : String) : List OptDict :=
  match dedupKeys (primaryCands helpText.data) with
  | [] => dedupKeys (fallbackCands helpText.data)
  | os => os

/-! ## Interactive command assembler
(`magnet.py`, `MagnetUI._build_interactive_command`) -/

/-- Python truthiness of an optional string: `None` and `""` are falsy. -/
def truthyStr : Option String → Bool
  | none => false
  | some s => if s = "" then false else true

/-- The token `opt["long"] if opt["long"] else opt["short"]` appended for a
selected option. When the truthy long form is absent the source appends
`opt["short"]`, which is a string for every descriptor `_parse_help_text`
produces; `getD ""` covers the unreachable case in which both forms are
missing (there the Python program would append `None` and crash later when
joining the tokens). -/
def flagToken (o : OptDict) : String :=
  if truthyStr o.long then o.long.getD "" else o.short.getD ""

/-- Result of one `browse_files` interaction (external file-selection
collaborator): a selected path, `None` for a `Back` signal, or a raised
`NavigationAction("exit")`. -/
inductive BrowseOutcome where
  | selected (path : String)
  | canceled
  | exited
deriving DecidableEq, Repr

/-- One scripted reply to a prompt of the assembly loop: a line of text, or
the outcome of a delegated `browse_files` call. -/
inductive Ev where
  | line (s : String)
  | browse (r : BrowseOutcome)
deriving DecidableEq, Repr

/-- Result of the `while True` assembly loop: the finished draft (`break`
at step choice `3`), an early `return` discarding the draft (`Aborted`), or
a script that ended while the loop still wanted input (the real program
would block at a prompt). -/
inductive BuildOutcome where
  | finished (draft : List String)
  | aborted
  | starved
deriving DecidableEq, Repr

/-- Program points of the `while True` loop of
`MagnetUI._build_interactive_command` at which user input is read:
`choosing` is the step prompt at the top of the loop, `choosingOption` the
option-number prompt, `awaitingValue opt` the value prompt for the
selected descriptor `opt`, `awaitingArg` the positional-argument prompt,
and `browsing` the delegated `browse_files` interaction. -/
inductive LoopState where
  | choosing
  | choosingOption
  | awaitingValue (opt : OptDict)
  | awaitingArg
  | browsing
deriving DecidableEq, Repr

/-- Result of handling one prompt reply: keep looping with an updated
draft and program point, or leave the loop with an outcome. -/
inductive StepRes where
  | cont (command : List String) (st : LoopState)
  | done (out : BuildOutcome)
deriving DecidableEq, Repr

/-- One prompt interaction of `MagnetUI._build_interactive_command`.
At every text prompt the reply is first classified: `exit` returns from
the whole builder (at the step prompt `back` also returns), `back`
re-enters the loop top without touching the draft. At the step prompt `3`
breaks with the draft, `1` moves to the option-number prompt, `2` to the
positional-argument prompt. At the option-number prompt a non-numeric
reply (ValueError) or an out-of-range index re-enters the loop unchanged;
a valid index appends `opt["long"] if opt["long"] else opt["short"]`
immediately for boolean descriptors, and moves to the value prompt for
value-taking ones, where a supplied value appends the flag token and the
value. At the positional-argument prompt the literal `browse`
(case-insensitive) delegates to `browse_files`, whose result is appended
when truthy; any other text is appended verbatim. A reply of the wrong
shape for the program point (text expected but browse result supplied, or
vice versa) leaves the loop blocked (`starved`). -/
def buildStep (opts : List OptDict) (command : List String) :
    LoopState → Ev → StepRes
  | .choosing, .line step =>
    if check_navigation step = some "exit" then .done .aborted
    else if check_navigation step = some "back" then .done .aborted
    else if step = "3" then .done (.finished command)
    else if step = "1" then .cont command .choosingOption
    else if step = "2" then .cont command .awaitingArg
    else .cont command .choosing
  | .choosingOption, .line choice =>
    if check_navigation choice = some "exit" then .done .aborted
    else if check_navigation choice = some "back" then .cont command .choosing
    else
      match pyToInt choice with
      | none => .cont command .choosing
      | some n =>
        if h : 0 ≤ n - 1 ∧ n - 1 < (opts.length : Int) then
          if (opts.get ⟨(n - 1).toNat, by omega⟩).requires_value then
            .cont command (.awaitingValue (opts.get ⟨(n - 1).toNat, by omega⟩))
          else .cont (command ++ [flagToken (opts.get ⟨(n - 1).toNat, by omega⟩)]) .choosing
        else .cont command .choosing
  | .awaitingValue opt, .line v =>
    if check_navigation v = some "exit" then .done .aborted
    else if check_navigation v = some "back" then .cont command .choosing
    else .cont (command ++ [flagToken opt, v]) .choosing
  | .awaitingArg, .line arg =>
    if check_navigation arg = some "exit" then .done .aborted
    else if check_navigation arg = some "back" then .cont command .choosing
    else if pyLowerStr arg = "browse" then .cont command .browsing
    else .cont (command ++ [arg]) .choosing
  | .browsing, .browse b =>
    match b with
    | .exited => .done .aborted
    | .canceled => .cont command .choosing
    | .selected p =>
      if p = "" then .cont command .choosing
      else .cont (command ++ [p]) .choosing
  | _, _ => .done .starved

/-- The `while True` loop of `MagnetUI._build_interactive_command`,
consuming scripted prompt replies in order with `buildStep`; a script that
ends while the loop still wants input leaves it blocked. -/
def buildLoop (opts : List OptDict) (command : List String)
    (st : LoopState) : List Ev → BuildOutcome
  | [] => .starved
  | e :: rest =>
    match buildStep opts command st e with
    | .done out => out
    | .cont command2 st2 => buildLoop opts command2 st2 rest

/-- Observable outcome of the post-loop run phase: which draft (if any) was
handed to `subprocess.Popen`, the command history afterwards, and whether
the success message was printed. -/
structure SessionResult where
  executed : Option (List String)
  history : List (String × String)
  reportedSuccess : Bool
deriving DecidableEq, Repr

/-- Post-loop phase of `_build_interactive_command` (source lines 431-457):
confirm, run the draft with streamed output, and print success or failure
by exit status. The inline runner never appends to `command_history`. -/
def magnetRunPhase (draft : List String) (confirm : Bool) (returncode : Int)
    (history : List (String × String)) : SessionResult :=
  if confirm then ⟨some draft, history, returncode == 0⟩
  else ⟨none, history, false⟩

/-- A whole `_build_interactive_command` session from the top of the
assembly loop (the working-directory step, which only talks to the file
system, is omitted): build the draft starting from `[command_name]`, then
run the post-loop phase on a finished draft; an aborted or starved loop
returns without executing anything. -/
def magnetSession (opts : List OptDict) (programName : String) (evs : List Ev)
    (confirm : Bool) (returncode : Int) (history : List (String × String)) :
    SessionResult :=
  match buildLoop opts [programName] .choosing evs with
  | .finished d => magnetRunPhase d confirm returncode history
  | _ => ⟨none, history, false⟩

/-- `BaseUI.execute_command`: confirm, run the joined command, and append
exactly one `(command, outcome)` pair to the history, `"success"` iff the
exit status is zero; returns whether the command succeeded. -/
def execute_command (command : String) (confirm : Bool) (returncode : Int)
    (history : List (String × String)) : List (String × String) × Bool :=
  if confirm then
    if returncode = 0 then (history ++ [(command, "success")], true)
    else (history ++ [(command, "error")], false)
  else (history, false)

-- Concrete evaluations checked against a hand-trace of the Python source.
example :
    parseHelpText "-o, --output FILE   Output path\n-v, --verbose   Enable verbose mode" =
      [⟨some "-o", some "--output", some "FILE", "Output path", true⟩,
       ⟨some "-v", some "--verbose", none, "Enable verbose mode", false⟩] := by decide

example :
    parseHelpText "-x ARG   Some desc" =
      [⟨none, some "-x", some "ARG", "Some desc", true⟩] := by decide

example :
    parseHelpText "usage: foo [-abc]" =
      [⟨some "-a", none, none, "Option flag", false⟩,
       ⟨some "-b", none, none, "Option flag", false⟩,
       ⟨some "-c", none, none, "Option flag", false⟩] := by decide

example :
    parseHelpText "usage: foo [--name NAME]" =
      [⟨some "--name", none, some "NAME", "NAME", true⟩] := by decide

example : check_navigation "Q" = some "exit" := by decide
example : check_navigation " back " = some "back" := by decide
example : check_navigation "backup" = none := by decide
example : pyToInt " 12 " = some 12 := by decide
example : pyToInt "1_2" = some 12 := by decide
example : pyToInt "x2" = none := by decide
example : pyToInt "-3" = some (-3) := by decide

example :
    buildLoop
      (parseHelpText "-o, --output FILE   Output path\n-v, --verbose   Enable verbose mode")
      ["tool"] .choosing
      [.line "1", .line "1", .line "out.txt", .line "1", .line "2", .line "3"] =
      .finished ["tool", "--output", "out.txt", "--verbose"] := by decide

example :
    magnetSession
      (parseHelpText "-o, --output FILE   Output path\n-v, --verbose   Enable verbose mode")
      "tool"
      [.line "1", .line "1", .line "out.txt", .line "1", .line "2", .line "3"]
      true 0 [] =
      ⟨some ["tool", "--output", "out.txt", "--verbose"], [], true⟩ := by decide

example :
    buildLoop (parseHelpText "-o, --output FILE   Output path") ["tool"] .choosing
      [.line "1", .line "1", .line "q"] = .aborted := by decide

example :
    buildLoop (parseHelpText "-o, --output FILE   Output path") ["tool"] .choosing
      [.line "1", .line "1", .line "b", .line "3"] = .finished ["tool"] := by decide

/-! ## Helper lemmas -/

theorem take_length_takeWhile {α : Type} (p : α → Bool) :
    ∀ l : List α, l.take (l.takeWhile p).length = l.takeWhile p := by
  intro l
  induction l with
  | nil => simp
  | cons a t ih =>
    by_cases h : p a
    · simp [List.takeWhile_cons, h, ih]
    · simp [List.takeWhile_cons, h]

theorem all_takeWhile {α : Type} (p : α → Bool) (l : List α) :
    (l.takeWhile p).all p = true := by
  simp only [List.all_eq_true]
  intro x hx
  exact List.mem_takeWhile_imp hx

/-- When `parseTail` captures a placeholder group, that group is a nonempty
string of uppercase letters and underscores. -/
theorem parseTail_arg_placeholder {r a d} (h : parseTail r = some (some a, d)) :
    a ≠ [] ∧ a.all isPlaceholderChar = true := by
  simp only [parseTail] at h
  split at h
  · rename_i hcond
    split at h
    · rename_i desc hdesc
      simp only [Option.some.injEq, Prod.mk.injEq] at h
      obtain ⟨ha, _⟩ := h
      subst ha
      rw [take_length_takeWhile]
      refine ⟨?_, all_takeWhile _ _⟩
      intro hnil
      have := hcond.2
      rw [hnil] at this
      simp at this
    · cases e : matchWsThenRest r <;> simp [e] at h
  · cases e : matchWsThenRest r <;> simp [e] at h

theorem optKey_mkOpt (c : Cand) : optKey (mkOpt c) = candKey c := rfl

theorem dedupGo_sublist :
    ∀ (l : List Cand) (seen : List (String × String)),
      (dedupGo seen l).Sublist (l.map mkOpt) := by
  intro l
  induction l with
  | nil => intro seen; simp [dedupGo]
  | cons c rest ih =>
    intro seen
    unfold dedupGo
    split
    · exact (ih seen).cons (mkOpt c)
    · exact (ih (candKey c :: seen)).cons₂ (mkOpt c)

theorem dedupGo_spec :
    ∀ (l : List Cand) (seen : List (String × String)) (o : OptDict),
      o ∈ dedupGo seen l →
        optKey o ∉ seen ∧
        ∃ c, l.find? (fun c' => decide (candKey c' = optKey o)) = some c ∧
          o = mkOpt c := by
  intro l
  induction l with
  | nil => intro seen o h; simp [dedupGo] at h
  | cons c rest ih =>
    intro seen o h
    unfold dedupGo at h
    split at h
    · rename_i hmem
      obtain ⟨hnot, c₀, hfind, rfl⟩ := ih seen o h
      have hne : candKey c ≠ optKey (mkOpt c₀) := by
        intro he; exact hnot (he ▸ hmem)
      refine ⟨hnot, c₀, ?_, rfl⟩
      rw [List.find?_cons_of_neg, hfind]
      simpa using hne
    · rename_i hmem
      rcases List.mem_cons.mp h with rfl | htail
      · refine ⟨by simpa [optKey_mkOpt] using hmem, c, ?_, rfl⟩
        rw [List.find?_cons_of_pos]
        simp [optKey_mkOpt]
      · obtain ⟨hnot, c₀, hfind, rfl⟩ := ih (candKey c :: seen) o htail
        simp only [List.mem_cons, not_or] at hnot
        refine ⟨hnot.2, c₀, ?_, rfl⟩
        rw [List.find?_cons_of_neg, hfind]
        simpa using fun he => hnot.1 he.symm

theorem dedupGo_keys_nodup :
    ∀ (l : List Cand) (seen : List (String × String)),
      ((dedupGo seen l).map optKey).Nodup := by
  intro l
  induction l with
  | nil => intro seen; simp [dedupGo]
  | cons c rest ih =>
    intro seen
    unfold dedupGo
    split
    · exact ih seen
    · simp only [List.map_cons, List.nodup_cons]
      refine ⟨?_, ih (candKey c :: seen)⟩
      rw [optKey_mkOpt]
      intro hmem
      obtain ⟨o, ho, hkey⟩ := List.mem_map.mp hmem
      obtain ⟨hnot, _⟩ := dedupGo_spec rest (candKey c :: seen) o ho
      exact hnot (by simp [hkey])

theorem dedupGo_complete :
    ∀ (l : List Cand) (seen : List (String × String)) (c : Cand),
      c ∈ l → candKey c ∉ seen →
        ∃ o ∈ dedupGo seen l, optKey o = candKey c := by
  intro l
  induction l with
  | nil => intro seen c h; simp at h
  | cons c0 rest ih =>
    intro seen c hmem hseen
    unfold dedupGo
    split
    · rename_i h0
      rcases List.mem_cons.mp hmem with rfl | htail
      · exact absurd h0 hseen
      · exact ih seen c htail hseen
    · rename_i h0
      by_cases hk : candKey c = candKey c0
      · exact ⟨mkOpt c0, List.mem_cons_self _ _, by rw [optKey_mkOpt, hk]⟩
      · rcases List.mem_cons.mp hmem with rfl | htail
        · exact absurd rfl hk
        · obtain ⟨o, ho, hkey⟩ := ih (candKey c0 :: seen) c htail
            (by simp only [List.mem_cons, not_or]; exact ⟨hk, hseen⟩)
          exact ⟨o, List.mem_cons_of_mem _ ho, hkey⟩

theorem mem_dedupGo_exists {l : List Cand} {seen : List (String × String)}
    {o : OptDict} (h : o ∈ dedupGo seen l) : ∃ c ∈ l, o = mkOpt c := by
  obtain ⟨_, c, hfind, rfl⟩ := dedupGo_spec l seen _ h
  exact ⟨c, List.mem_of_find?_eq_some hfind, rfl⟩

theorem parseHelpText_eq_dedup (text : String) :
    parseHelpText text = dedupKeys (candidatesOf text.data) := by
  unfold parseHelpText candidatesOf
  cases e : primaryCands text.data with
  | nil => simp [dedupKeys, dedupGo]
  | cons c rest =>
    have : dedupKeys (c :: rest) = mkOpt c :: dedupGo [candKey c] rest := by
      simp [dedupKeys, dedupGo]
    simp [this]

theorem lineCand_form {line : List Char} {c : Cand}
    (h : lineCand line = some c) : c.short ≠ none ∨ c.long ≠ none := by
  unfold lineCand at h
  split at h
  · simp only [Option.some.injEq] at h; subst h; simp
  · split at h
    · simp only [Option.some.injEq] at h; subst h; simp
    · split at h
      · simp only [Option.some.injEq] at h; subst h; simp
      · exact absurd h (by simp)

/-- The flag groups matched by the first pattern are nonempty (they start
with the matched dashes). -/
theorem match1_groups {line s l a d}
    (h : match1 line = some (s, l, a, d)) : s ≠ [] ∧ l ≠ [] := by
  simp only [match1] at h
  split at h
  · split at h
    · simp at h
    · split at h
      · simp at h
      · split at h
        · split at h
          · simp at h
          · split at h
            · simp only [Option.some.injEq, Prod.mk.injEq] at h
              obtain ⟨hs, hl, -, -⟩ := h
              subst hs
              subst hl
              simp
            · simp at h
        · simp at h
  · simp at h

/-- The flag group matched by the second pattern is nonempty. -/
theorem match2_group {line l a d}
    (h : match2 line = some (l, a, d)) : l ≠ [] := by
  simp only [match2] at h
  split at h
  · split at h
    · simp at h
    · split at h
      · simp only [Option.some.injEq, Prod.mk.injEq] at h
        obtain ⟨hl, -, -⟩ := h
        subst hl
        simp
      · simp at h
  · simp at h

/-- The flag group matched by the third pattern is nonempty. -/
theorem match3_group {line s a d}
    (h : match3 line = some (s, a, d)) : s ≠ [] := by
  simp only [match3] at h
  split at h
  · split at h
    · simp at h
    · split at h
      · simp only [Option.some.injEq, Prod.mk.injEq] at h
        obtain ⟨hs, -, -⟩ := h
        subst hs
        simp
      · simp at h
  · simp at h

/-- Every long form a primary-pass candidate carries starts with a dash,
so it is never the empty string (Python truthiness of a present long form
coincides with presence). -/
theorem lineCand_long_ne_empty {line : List Char} {c : Cand}
    (h : lineCand line = some c) : ∀ lstr, c.long = some lstr → lstr ≠ "" := by
  unfold lineCand at h
  split at h
  · rename_i s l a d heq
    simp only [Option.some.injEq] at h
    subst h
    intro lstr hl
    simp only [Option.some.injEq] at hl
    subst hl
    simpa [String.ext_iff] using (match1_groups heq).2
  · split at h
    · rename_i l a d heq
      simp only [Option.some.injEq] at h
      subst h
      intro lstr hl
      simp only [Option.some.injEq] at hl
      subst hl
      simpa [String.ext_iff] using match2_group heq
    · split at h
      · rename_i s a d heq
        simp only [Option.some.injEq] at h
        subst h
        intro lstr hl
        simp only [Option.some.injEq] at hl
        subst hl
        simpa [String.ext_iff] using match3_group heq
      · exact absurd h (by simp)

/-- Fallback candidates never carry a long form. -/
theorem tokenCands_long_none {tok : List Char} {c : Cand}
    (h : c ∈ tokenCands tok) : c.long = none := by
  simp only [tokenCands] at h
  split at h
  · simp at h
  · split at h
    · simp at h
    · split at h
      · obtain ⟨ch, _, rfl⟩ := List.mem_map.mp h
        rfl
      · split at h
        · simp at h
        · split at h
          · split at h
            · simp at h; subst h; rfl
            · simp at h; subst h; rfl
          · simp at h

theorem tokenCands_form {tok : List Char} {c : Cand}
    (h : c ∈ tokenCands tok) : c.short ≠ none := by
  simp only [tokenCands] at h
  split at h
  · simp at h
  · split at h
    · simp at h
    · split at h
      · obtain ⟨ch, _, rfl⟩ := List.mem_map.mp h
        simp
      · split at h
        · simp at h
        · split at h
          · split at h
            · simp at h; subst h; simp
            · simp at h; subst h; simp
          · simp at h

theorem match1_arg {line s l a d}
    (h : match1 line = some (s, l, some a, d)) :
    a ≠ [] ∧ a.all isPlaceholderChar = true := by
  simp only [match1] at h
  split at h
  · split at h
    · simp at h
    · split at h
      · simp at h
      · split at h
        · split at h
          · simp at h
          · split at h
            · rename_i heq
              simp only [Option.some.injEq, Prod.mk.injEq] at h
              obtain ⟨-, -, ha, -⟩ := h
              rw [ha] at heq
              exact parseTail_arg_placeholder heq
            · simp at h
        · simp at h
  · simp at h

theorem match2_arg {line l a d}
    (h : match2 line = some (l, some a, d)) :
    a ≠ [] ∧ a.all isPlaceholderChar = true := by
  simp only [match2] at h
  split at h
  · split at h
    · simp at h
    · split at h
      · rename_i heq
        simp only [Option.some.injEq, Prod.mk.injEq] at h
        obtain ⟨-, ha, -⟩ := h
        rw [ha] at heq
        exact parseTail_arg_placeholder heq
      · simp at h
  · simp at h

theorem match3_arg {line s a d}
    (h : match3 line = some (s, some a, d)) :
    a ≠ [] ∧ a.all isPlaceholderChar = true := by
  simp only [match3] at h
  split at h
  · split at h
    · simp at h
    · split at h
      · rename_i heq
        simp only [Option.some.injEq, Prod.mk.injEq] at h
        obtain ⟨-, ha, -⟩ := h
        rw [ha] at heq
        exact parseTail_arg_placeholder heq
      · simp at h
  · simp at h

/-- No descriptor of the extracted option model carries an empty long
form: for these descriptors, Python truthiness of `opt["long"]` coincides
with the long form being present. -/
theorem parse_long_never_empty :
    ∀ (text : String), ∀ o ∈ parseHelpText text, o.long ≠ some "" := by
  intro text o ho
  rw [parseHelpText_eq_dedup] at ho
  obtain ⟨c, hc, rfl⟩ := mem_dedupGo_exists ho
  have : c.long ≠ some "" := by
    unfold candidatesOf at hc
    split at hc
    · obtain ⟨tok, _, htok⟩ := List.mem_flatMap.mp hc
      rw [tokenCands_long_none htok]
      simp
    · obtain ⟨line, _, hline⟩ := List.mem_filterMap.mp hc
      intro he
      exact lineCand_long_ne_empty hline "" he rfl
  simpa [mkOpt] using this

/-! ## Claim theorems -/

/-- C8: `check_navigation` returns `back` iff the whitespace-trimmed,
lowercased input is `b` or `back`, `exit` iff it is `q`, `quit` or `exit`,
and no signal otherwise; `"Q"`, `" back "` and `"quit"` classify as
signals while `"backup"` does not; and `raise_if_navigation` raises a
`NavigationAction` carrying exactly the classified action, returning
normally iff the classification is empty. -/
theorem navigation_classifier_characterization :
    (∀ s : String,
      (check_navigation s = some "back" ↔
        normalizeInput s = "b" ∨ normalizeInput s = "back") ∧
      (check_navigation s = some "exit" ↔
        normalizeInput s = "q" ∨ normalizeInput s = "quit" ∨
          normalizeInput s = "exit") ∧
      (check_navigation s = none ↔
        ¬(normalizeInput s = "b" ∨ normalizeInput s = "back" ∨
          normalizeInput s = "q" ∨ normalizeInput s = "quit" ∨
          normalizeInput s = "exit")) ∧
      (∀ a : String,
        raise_if_navigation s = Except.error ⟨a⟩ ↔ check_navigation s = some a) ∧
      (raise_if_navigation s = Except.ok () ↔ check_navigation s = none)) ∧
    check_navigation "Q" = some "exit" ∧
    check_navigation " back " = some "back" ∧
    check_navigation "quit" = some "exit" ∧
    check_navigation "backup" = none := by
  refine ⟨?_, by decide, by decide, by decide, by decide⟩
  intro s
  refine ⟨?_, ?_, ?_, ?_, ?_⟩
  · simp only [check_navigation]
    split_ifs with h1 h2 <;> simp_all
  · simp only [check_navigation]
    split_ifs with h1 h2
    · rcases h1 with h | h <;> simp [h]
    · simp_all
    · simp_all
  · simp only [check_navigation]
    split_ifs with h1 h2
    · rcases h1 with h | h <;> simp [h]
    · rcases h2 with h | h | h <;> simp [h]
    · simp_all [not_or]
  · intro a
    cases e : check_navigation s <;>
      simp [raise_if_navigation, e, NavigationAction.mk.injEq, eq_comm]
  · cases e : check_navigation s <;> simp [raise_if_navigation, e]

/-- C10: every descriptor `_parse_help_text` produces, through either the
primary pass or the fallback pass, has a short form or a long form. -/
theorem parse_descriptor_form_present :
    ∀ (helpText : String), ∀ o ∈ parseHelpText helpText,
      o.short ≠ none ∨ o.long ≠ none := by
  intro text o ho
  rw [parseHelpText_eq_dedup] at ho
  obtain ⟨c, hc, rfl⟩ := mem_dedupGo_exists ho
  have hform : c.short ≠ none ∨ c.long ≠ none := by
    unfold candidatesOf at hc
    split at hc
    · obtain ⟨tok, _, htok⟩ := List.mem_flatMap.mp hc
      exact Or.inl (tokenCands_form htok)
    · obtain ⟨line, _, hline⟩ := List.mem_filterMap.mp hc
      exact lineCand_form hline
  simpa [mkOpt] using hform

/-- C10 witness: the invariant holds for the first descriptor parsed from
a concrete help text. -/
theorem parse_descriptor_form_present_witness :
    (⟨some "-o", some "--output", some "FILE", "Output path", true⟩ : OptDict).short ≠ none ∨
    (⟨some "-o", some "--output", some "FILE", "Output path", true⟩ : OptDict).long ≠ none :=
  parse_descriptor_form_present "-o, --output FILE   Output path"
    ⟨some "-o", some "--output", some "FILE", "Output path", true⟩ (by decide)

/-- C9: `_parse_help_text` de-duplicates by the identity pair
`(short or "", long or "")`: the extracted list carries pairwise distinct
identity keys, is a sublist (hence order-preserving) of the chosen pass's
candidate stream, each kept descriptor is built from the first candidate
carrying its key (so the first occurrence's description is retained), and
every candidate's key is represented. -/
theorem parse_dedup_first_occurrence_wins :
    ∀ helpText : String,
      parseHelpText helpText = dedupKeys (candidatesOf helpText.data) ∧
      ((parseHelpText helpText).map optKey).Nodup ∧
      (parseHelpText helpText).Sublist ((candidatesOf helpText.data).map mkOpt) ∧
      (∀ o ∈ parseHelpText helpText,
        ∃ c, (candidatesOf helpText.data).find?
            (fun c' => decide (candKey c' = optKey o)) = some c ∧ o = mkOpt c) ∧
      (∀ c ∈ candidatesOf helpText.data,
        ∃ o ∈ parseHelpText helpText, optKey o = candKey c) := by
  intro text
  rw [parseHelpText_eq_dedup]
  refine ⟨rfl, dedupGo_keys_nodup _ _, dedupGo_sublist _ _, ?_, ?_⟩
  · intro o ho
    exact (dedupGo_spec _ _ o ho).2
  · intro c hc
    exact dedupGo_complete _ [] c hc (by simp)

/-- C9 witness: on help text repeating the identity `(-a, --all)`, the
kept descriptor is built from the first candidate with that key. -/
theorem parse_dedup_first_occurrence_wins_witness :
    ∃ c, (candidatesOf ("-a, --all   First desc\n-a, --all   Second desc").data).find?
        (fun c' => decide (candKey c' =
          optKey ⟨some "-a", some "--all", none, "First desc", false⟩)) = some c ∧
      (⟨some "-a", some "--all", none, "First desc", false⟩ : OptDict) = mkOpt c :=
  (parse_dedup_first_occurrence_wins "-a, --all   First desc\n-a, --all   Second desc").2.2.2.1
    ⟨some "-a", some "--all", none, "First desc", false⟩ (by decide)

/-- C3: the primary pass tries the three line patterns in priority order —
the first match determines the candidate and later patterns are ignored —
and a produced descriptor has `requires_value` true iff the placeholder
group matched, which is always a nonempty string of uppercase letters and
underscores. -/
theorem primary_pattern_priority_and_placeholder :
    ∀ line : List Char,
      (∀ s l a d, match1 line = some (s, l, a, d) →
        lineCand line = some ⟨some ⟨s⟩, some ⟨l⟩, a.map (⟨·⟩), ⟨d⟩⟩) ∧
      (match1 line = none → ∀ l a d, match2 line = some (l, a, d) →
        lineCand line = some ⟨none, some ⟨l⟩, a.map (⟨·⟩), ⟨d⟩⟩) ∧
      (match1 line = none → match2 line = none →
        ∀ s a d, match3 line = some (s, a, d) →
          lineCand line = some ⟨none, some ⟨s⟩, a.map (⟨·⟩), ⟨d⟩⟩) ∧
      (∀ c, lineCand line = some c →
        ((mkOpt c).requires_value = true ↔ c.arg ≠ none) ∧
        (∀ a : String, c.arg = some a →
          a.data ≠ [] ∧ a.data.all isPlaceholderChar = true)) := by
  intro line
  refine ⟨?_, ?_, ?_, ?_⟩
  · intro s l a d h
    simp [lineCand, h]
  · intro h1 l a d h
    simp [lineCand, h1, h]
  · intro h1 h2 s a d h
    simp [lineCand, h1, h2, h]
  · intro c hc
    constructor
    · simp [mkOpt, Option.isSome_iff_ne_none]
    · intro a ha
      unfold lineCand at hc
      split at hc
      · rename_i s l a0 d e1
        simp only [Option.some.injEq] at hc
        subst hc
        simp only [Option.map_eq_some'] at ha
        obtain ⟨a0', rfl, rfl⟩ := ha
        exact match1_arg e1
      · split at hc
        · rename_i l a0 d e2
          simp only [Option.some.injEq] at hc
          subst hc
          simp only [Option.map_eq_some'] at ha
          obtain ⟨a0', rfl, rfl⟩ := ha
          exact match2_arg e2
        · split at hc
          · rename_i s a0 d e3
            simp only [Option.some.injEq] at hc
            subst hc
            simp only [Option.map_eq_some'] at ha
            obtain ⟨a0', rfl, rfl⟩ := ha
            exact match3_arg e3
          · simp at hc

/-- C3 witness: the third pattern decides a line the first two do not
match, and the placeholder group classifies it as requiring a value. -/
theorem primary_pattern_priority_and_placeholder_witness :
    lineCand ("-x ARG   Some desc").data =
      some ⟨none, some ⟨("-x").data⟩, (some ("ARG").data).map (⟨·⟩),
        ⟨("Some desc").data⟩⟩ :=
  (primary_pattern_priority_and_placeholder ("-x ARG   Some desc").data).2.2.1
    (by decide) (by decide) ("-x").data (some ("ARG").data) ("Some desc").data
    (by decide)

/-- C4: the source dispatches regex matches by group count, so a line that
matches only the short-form-only pattern is recorded with the short token
in the `long` field and `short = None` — not, as the claim states, with
`shortForm` set and `longForm` absent. -/
theorem short_only_line_misrecorded :
    parseHelpText "-x ARG   Some desc" =
      [⟨none, some "-x", some "ARG", "Some desc", true⟩] := by decide

/-- C5: the fallback pass runs exactly when the primary pass produced no
descriptor; a stripped bracket token starting with `-`, containing no
space, and longer than two characters yields one boolean short-form-only
descriptor per character after the dash, each described "Option flag";
and the concrete synopsis `usage: foo [-abc]` yields exactly `-a`, `-b`,
`-c`. -/
theorem fallback_packed_flag_bundle :
    (∀ text : String, dedupKeys (primaryCands text.data) ≠ [] →
      parseHelpText text = dedupKeys (primaryCands text.data)) ∧
    (∀ text : String, primaryCands text.data = [] →
      parseHelpText text = dedupKeys (fallbackCands text.data)) ∧
    (∀ tok l : List Char, pyStrip tok = l → l.head? = some '-' →
      ¬(' ' ∈ l) → 2 < l.length →
      tokenCands tok =
        (l.drop 1).map (fun ch => ⟨some ⟨['-', ch]⟩, none, none, "Option flag"⟩)) ∧
    parseHelpText "usage: foo [-abc]" =
      [⟨some "-a", none, none, "Option flag", false⟩,
       ⟨some "-b", none, none, "Option flag", false⟩,
       ⟨some "-c", none, none, "Option flag", false⟩] := by
  refine ⟨?_, ?_, ?_, by decide⟩
  · intro t h
    unfold parseHelpText
    split
    · rename_i heq
      exact absurd heq h
    · rfl
  · intro t h
    simp [parseHelpText, h, dedupKeys, dedupGo]
  · intro tok l hstrip hhead hsp hlen
    have hne : l ≠ [] := by cases l <;> simp_all
    have husage : lowerStartsWithUsage l = false := by
      cases l with
      | nil => simp at hhead
      | cons a t =>
        have ha : a = '-' := by simpa using hhead
        subst ha
        have hlow : Char.toLower '-' = '-' := rfl
        simp [lowerStartsWithUsage, hlow]
    simp only [tokenCands]
    rw [hstrip, if_neg hne, if_neg (by simp [husage]), if_pos ⟨hhead, hsp, hlen⟩]

/-- C5 witness: the packed-bundle rule applied to the concrete token
`-abc`. -/
theorem fallback_packed_flag_bundle_witness :
    tokenCands ("-abc").data =
      (("-abc").data.drop 1).map
        (fun ch => ⟨some ⟨['-', ch]⟩, none, none, "Option flag"⟩) :=
  fallback_packed_flag_bundle.2.2.1 ("-abc").data ("-abc").data
    (by decide) (by decide) (by decide) (by decide)

/-- C1: a valid option selection appends the long form if present else
the short form (the source tests Python truthiness, which coincides with
presence because no extracted descriptor carries an empty long form),
followed by the supplied value when the descriptor requires one, and
returns to the action-choice state; and on the two descriptors parsed
from the claim's help text, selecting option 1 with value `out.txt`, then
option 2, then finishing with program name `tool` yields the draft
`["tool", "--output", "out.txt", "--verbose"]`. -/
theorem flag_selection_appends_and_scenario :
    (∀ (opts : List OptDict) (cmd : List String) (evs : List Ev)
        (c v : String) (n : Int),
      check_navigation c = none → pyToInt c = some n →
      ∀ (hb : 0 ≤ n - 1 ∧ n - 1 < (opts.length : Int)),
      ((opts.get ⟨(n - 1).toNat, by omega⟩).requires_value = true →
        check_navigation v = none →
        buildLoop opts cmd .choosing (.line "1" :: .line c :: .line v :: evs) =
          buildLoop opts
            (cmd ++ [flagToken (opts.get ⟨(n - 1).toNat, by omega⟩), v]) .choosing evs) ∧
      ((opts.get ⟨(n - 1).toNat, by omega⟩).requires_value = false →
        buildLoop opts cmd .choosing (.line "1" :: .line c :: evs) =
          buildLoop opts
            (cmd ++ [flagToken (opts.get ⟨(n - 1).toNat, by omega⟩)]) .choosing evs)) ∧
    (∀ (o : OptDict) (l : String), o.long = some l → l ≠ "" → flagToken o = l) ∧
    (∀ (o : OptDict) (s : String), o.long = none → o.short = some s →
      flagToken o = s) ∧
    (∀ (text : String), ∀ o ∈ parseHelpText text, o.long ≠ some "") ∧
    parseHelpText "-o, --output FILE   Output path\n-v, --verbose   Enable verbose mode" =
      [⟨some "-o", some "--output", some "FILE", "Output path", true⟩,
       ⟨some "-v", some "--verbose", none, "Enable verbose mode", false⟩] ∧
    buildLoop
      (parseHelpText "-o, --output FILE   Output path\n-v, --verbose   Enable verbose mode")
      ["tool"] .choosing
      [.line "1", .line "1", .line "out.txt", .line "1", .line "2", .line "3"] =
      .finished ["tool", "--output", "out.txt", "--verbose"] := by
  refine ⟨?_, ?_, ?_, parse_long_never_empty, by decide, by decide⟩
  · intro opts cmd evs c v n hc hn hb
    have e1 : check_navigation "1" = none := by decide
    have hidx : (n - 1).toNat = n.toNat - 1 := by omega
    constructor
    · intro hrv hv
      simp only [List.get_eq_getElem, hidx] at hrv
      simp [buildLoop, buildStep, e1, hc, hn, hb, hrv, hv]
    · intro hrv
      simp only [List.get_eq_getElem, hidx] at hrv
      simp [buildLoop, buildStep, e1, hc, hn, hb, hrv]
  · intro o l hl hne
    simp [flagToken, truthyStr, hl, hne]
  · intro o s hl hs
    simp [flagToken, truthyStr, hl, hs]

/-- C1 witness: a concrete valid selection of a value-taking option
appends the long form and the value and re-enters the loop. -/
theorem flag_selection_appends_and_scenario_witness :
    buildLoop [⟨some "-o", some "--output", some "FILE", "Output path", true⟩]
      ["tool"] .choosing [.line "1", .line "1", .line "out.txt", .line "3"] =
      buildLoop [⟨some "-o", some "--output", some "FILE", "Output path", true⟩]
        (["tool"] ++
          [flagToken (([⟨some "-o", some "--output", some "FILE", "Output path", true⟩] :
            List OptDict).get ⟨0, by decide⟩), "out.txt"])
        .choosing [.line "3"] :=
  (flag_selection_appends_and_scenario.1
    [⟨some "-o", some "--output", some "FILE", "Output path", true⟩]
    ["tool"] [.line "3"] "1" "out.txt" 1 (by decide) (by decide)
    ⟨by decide, by decide⟩).1 (by decide) (by decide)

/-- C6: an input classifying as the Exit signal, at the step prompt, the
option-number prompt, the value prompt, the positional-argument prompt, or
inside a delegated browse, terminates the whole assembly with the draft
discarded; and an aborted build never invokes the process-execution
collaborator nor touches the history. -/
theorem exit_aborts_assembly :
    (∀ (opts : List OptDict) (cmd : List String) (s : String) (evs : List Ev),
      check_navigation s = some "exit" →
        buildLoop opts cmd .choosing (.line s :: evs) = .aborted) ∧
    (∀ (opts : List OptDict) (cmd : List String) (s : String) (evs : List Ev),
      check_navigation s = some "exit" →
        buildLoop opts cmd .choosing (.line "1" :: .line s :: evs) = .aborted) ∧
    (∀ (opts : List OptDict) (cmd : List String) (c v : String) (n : Int)
        (evs : List Ev),
      check_navigation c = none → pyToInt c = some n →
      ∀ (hb : 0 ≤ n - 1 ∧ n - 1 < (opts.length : Int)),
      (opts.get ⟨(n - 1).toNat, by omega⟩).requires_value = true →
      check_navigation v = some "exit" →
        buildLoop opts cmd .choosing (.line "1" :: .line c :: .line v :: evs) = .aborted) ∧
    (∀ (opts : List OptDict) (cmd : List String) (s : String) (evs : List Ev),
      check_navigation s = some "exit" →
        buildLoop opts cmd .choosing (.line "2" :: .line s :: evs) = .aborted) ∧
    (∀ (opts : List OptDict) (cmd : List String) (b : String) (evs : List Ev),
      check_navigation b = none → pyLowerStr b = "browse" →
        buildLoop opts cmd .choosing (.line "2" :: .line b :: .browse .exited :: evs) =
          .aborted) ∧
    (∀ (opts : List OptDict) (p : String) (evs : List Ev) (confirm : Bool)
        (rc : Int) (h : List (String × String)),
      buildLoop opts [p] .choosing evs = .aborted →
        (magnetSession opts p evs confirm rc h).executed = none ∧
        (magnetSession opts p evs confirm rc h).history = h) := by
  have e1 : check_navigation "1" = none := by decide
  have e2 : check_navigation "2" = none := by decide
  refine ⟨?_, ?_, ?_, ?_, ?_, ?_⟩
  · intro opts cmd s evs h
    simp [buildLoop, buildStep, h]
  · intro opts cmd s evs h
    simp [buildLoop, buildStep, e1, h]
  · intro opts cmd c v n evs hc hn hb hrv hv
    have hidx : (n - 1).toNat = n.toNat - 1 := by omega
    simp only [List.get_eq_getElem, hidx] at hrv
    simp [buildLoop, buildStep, e1, hc, hn, hb, hrv, hv]
  · intro opts cmd s evs h
    simp [buildLoop, buildStep, e2, h]
  · intro opts cmd b evs hb hbrowse
    simp [buildLoop, buildStep, e2, hb, hbrowse]
  · intro opts p evs confirm rc h habort
    simp [magnetSession, habort]

/-- C6 witness: exiting at the very first prompt aborts, and the aborted
session executes nothing. -/
theorem exit_aborts_assembly_witness :
    buildLoop ([] : List OptDict) ["tool"] .choosing [.line "q"] = .aborted :=
  exit_aborts_assembly.1 [] ["tool"] "q" [] (by decide)

/-- C7: a Back signal at the value prompt of a value-taking option returns
to the action-choice prompt with the draft exactly as it was before the
option was selected: no flag token and no value token is appended. -/
theorem back_at_value_prompt_preserves_draft :
    ∀ (opts : List OptDict) (cmd : List String) (evs : List Ev)
      (c v : String) (n : Int),
      check_navigation c = none → pyToInt c = some n →
      ∀ (hb : 0 ≤ n - 1 ∧ n - 1 < (opts.length : Int)),
      (opts.get ⟨(n - 1).toNat, by omega⟩).requires_value = true →
      check_navigation v = some "back" →
        buildLoop opts cmd .choosing (.line "1" :: .line c :: .line v :: evs) =
          buildLoop opts cmd .choosing evs := by
  intro opts cmd evs c v n hc hn hb hrv hv
  have e1 : check_navigation "1" = none := by decide
  have hidx : (n - 1).toNat = n.toNat - 1 := by omega
  simp only [List.get_eq_getElem, hidx] at hrv
  simp [buildLoop, buildStep, e1, hc, hn, hb, hrv, hv]

/-- C7 witness: a concrete Back at the value prompt leaves the draft
unchanged and re-enters the loop. -/
theorem back_at_value_prompt_preserves_draft_witness :
    buildLoop [⟨some "-o", some "--output", some "FILE", "Output path", true⟩]
      ["tool"] .choosing [.line "1", .line "1", .line "b"] =
      buildLoop [⟨some "-o", some "--output", some "FILE", "Output path", true⟩]
        ["tool"] .choosing [] :=
  back_at_value_prompt_preserves_draft
    [⟨some "-o", some "--output", some "FILE", "Output path", true⟩]
    ["tool"] [] "1" "b" 1 (by decide) (by decide) ⟨by decide, by decide⟩
    (by decide) (by decide)

/-- C2 counterexample: a draft that reaches `Finished`, is confirmed and
runs to completion with exit status zero leaves the session history empty
— the interactive assembler records no `(command, outcome)` pair, not
exactly one. -/
theorem assembler_history_counterexample :
    (magnetSession
      (parseHelpText "-o, --output FILE   Output path\n-v, --verbose   Enable verbose mode")
      "tool" [.line "1", .line "1", .line "out.txt", .line "1", .line "2", .line "3"]
      true 0 []).executed = some ["tool", "--output", "out.txt", "--verbose"] ∧
    (magnetSession
      (parseHelpText "-o, --output FILE   Output path\n-v, --verbose   Enable verbose mode")
      "tool" [.line "1", .line "1", .line "out.txt", .line "1", .line "2", .line "3"]
      true 0 []).history = [] ∧
    ¬((magnetSession
      (parseHelpText "-o, --output FILE   Output path\n-v, --verbose   Enable verbose mode")
      "tool" [.line "1", .line "1", .line "out.txt", .line "1", .line "2", .line "3"]
      true 0 []).history.length = 1) := by decide

/-- C2 amended: the interactive assembler's run phase reports success by
exit status but never appends to the command history; exactly-one-pair
recording with outcome by exit status is done only by
`BaseUI.execute_command`, which the assembler does not invoke. -/
theorem assembler_records_no_history :
    (∀ (draft : List String) (confirm : Bool) (rc : Int)
        (h : List (String × String)),
      (magnetRunPhase draft confirm rc h).history = h) ∧
    (∀ (draft : List String) (rc : Int) (h : List (String × String)),
      (magnetRunPhase draft true rc h).reportedSuccess = (rc == 0)) ∧
    (∀ (opts : List OptDict) (p : String) (evs : List Ev) (confirm : Bool)
        (rc : Int) (h : List (String × String)),
      (magnetSession opts p evs confirm rc h).history = h) ∧
    (∀ (cmd : String) (rc : Int) (h : List (String × String)),
      (execute_command cmd true rc h).1 =
        h ++ [(cmd, if rc = 0 then "success" else "error")]) ∧
    (∀ (cmd : String) (rc : Int) (h : List (String × String)),
      (execute_command cmd true rc h).2 = decide (rc = 0)) ∧
    (∀ (cmd : String) (rc : Int) (h : List (String × String)),
      execute_command cmd false rc h = (h, false)) := by
  refine ⟨?_, ?_, ?_, ?_, ?_, ?_⟩
  · intro draft confirm rc h
    simp only [magnetRunPhase]
    split <;> rfl
  · intro draft rc h
    simp [magnetRunPhase]
  · intro opts p evs confirm rc h
    cases e : buildLoop opts [p] .choosing evs
    all_goals simp only [magnetSession, e, magnetRunPhase]
    all_goals first | rfl | (split <;> rfl)
  · intro cmd rc h
    simp only [execute_command, if_true]
    split_ifs with h0 <;> simp [h0]
  · intro cmd rc h
    simp only [execute_command, if_true]
    split_ifs with h0 <;> simp [h0]
  · intro cmd rc h
    simp [execute_command]

end Richcli
